import Mathlib

/-!
Verification of the linq-scoring-agent extraction/filtering pipeline.

This file gives a shallow embedding of the pipeline code
(`src/scoring/utils.py`, `src/scoring/api_fetcher.py`, `src/scoring/fetch.py`,
`run.py`) into Lean and proves properties of the embedded definitions.

Conventions of the embedding:
* Python exceptions are modelled by `Except PyErr`.
* Python strings are Lean `String` (a wrapper around `List Char` in this
  toolchain); `str.split(sep)` and `sep.join(...)` for a one-character
  separator are modelled by `pySplit` / `pyJoin` below.
* Asynchronous provider calls are modelled by oracle functions collected in a
  `Providers` record; `asyncio.gather` over deterministic tasks is modelled by
  `gatherExcept` (first raised exception propagates, results are aligned with
  submission order).
* External collaborators (NLTK sentence tokenizer, the JSON parser, prompt
  templates) are parameters of the embedded functions; prompt construction is
  kept opaque via the `Messages` inductive.
-/

deriving instance DecidableEq for Except

/-- Python exception values (only the distinctions the code observes). -/
inductive PyErr where
  | valueError (msg : String)
  | attributeError (msg : String)
  | indexError
  | other (msg : String)
  deriving DecidableEq, Repr

/-- Python slice `l[a:b]` for non-negative bounds. -/
def pySlice {α : Type} (l : List α) (a b : Nat) : List α := (l.take b).drop a

/-- Python index normalisation: a negative index counts from the end. -/
def pyWrap (len : Nat) (i : Int) : Int := if i < 0 then i + len else i

/-- Python single-element indexing `l[i]`, raising IndexError when out of
range and wrapping negative indices. -/
def pyIndex {α : Type} (l : List α) (i : Int) : Except PyErr α :=
  if h : 0 ≤ pyWrap l.length i ∧ pyWrap l.length i < l.length then
    .ok (l.get ⟨(pyWrap l.length i).toNat, by omega⟩)
  else
    .error .indexError

/-- Python `s.split(sep)` on a character list, for a one-character separator:
no collapsing of adjacent separators, and the empty string yields one empty
field. -/
def splitChar (sep : Char) : List Char → List (List Char)
  | [] => [[]]
  | c :: rest =>
    match splitChar sep rest with
    | [] => [[]]
    | h :: t => if c = sep then [] :: h :: t else (c :: h) :: t

/-- Python `sep.join(parts)` on character lists, for a one-character
separator. -/
def joinChar (sep : Char) : List (List Char) → List Char
  | [] => []
  | [l] => l
  | l :: ls => l ++ sep :: joinChar sep ls

/-- Python `s.split(sep)` at `String` level. -/
def pySplit (sep : Char) (s : String) : List String :=
  (splitChar sep s.data).map String.mk

/-- Python `sep.join(parts)` at `String` level. -/
def pyJoin (sep : Char) (parts : List String) : String :=
  String.mk (joinChar sep (parts.map String.data))

/-- Python `range(0, stop, step)` for a positive step. -/
def rangeStep (stop step : Nat) : List Nat :=
  (List.range ((stop + step - 1) / step)).map (· * step)

/-- In-place `parts[-1].extend(r)`: the last element of the list is extended
by `r` (the code only uses this on non-empty lists of parts). -/
def extendLast {α : Type} : List (List α) → List α → List (List α)
  | [], _ => []
  | [p], r => [p ++ r]
  | p :: q :: ps, r => p :: extendLast (q :: ps) r

/-- Model of `asyncio.gather` over deterministic tasks: results are aligned
with submission order and the first raised exception propagates. -/
def gatherExcept {ε α β : Type} (f : α → Except ε β) : List α → Except ε (List β)
  | [] => .ok []
  | a :: l => do
    let b ← f a
    let bs ← gatherExcept f l
    pure (b :: bs)

/- ------------------------------------------------------------------
Data model of `src/scoring/outputs.py`, `src/scoring/_default.py` and the
provider SDK response shapes the code touches.
------------------------------------------------------------------ -/

/-- Token usage metrics of one provider call (`usage.model_dump()` result). -/
structure TokensUsage where
  prompt_tokens : Int
  completion_tokens : Int
  total_tokens : Int
  deriving DecidableEq, Repr

/-- The usage dictionary built by `fetch_parsed`: provider name to dumped
usage; the groq/furiosa entry may be `None`. -/
abbrev UsageMap := List (String × Option TokensUsage)

/-- `ParsedChatCompletionMessage`: `parsed` is `None` when schema decoding
produced nothing. -/
structure ParsedChatCompletionMessage (α : Type) where
  role : String := "assistant"
  parsed : Option α := none
  deriving DecidableEq, Repr

/-- One choice of a parsed chat completion. -/
structure ParsedChoice (α : Type) where
  finish_reason : String := "stop"
  index : Int := 0
  message : ParsedChatCompletionMessage α
  deriving DecidableEq, Repr

/-- `ParsedChatCompletion` with the fields the code reads or constructs. -/
structure ParsedChatCompletion (α : Type) where
  id : String := ""
  choices : List (ParsedChoice α)
  created : Int := 0
  model : String := ""
  object : String := "chat.completion"
  usage : Option TokensUsage := none
  deriving DecidableEq, Repr

/-- Plain chat-completion message (groq / furiosa free-text path). -/
structure ChatCompletionMessage where
  role : String := "assistant"
  content : String
  deriving DecidableEq, Repr

/-- One choice of a plain chat completion. -/
structure ChatChoice where
  message : ChatCompletionMessage
  deriving DecidableEq, Repr

/-- Plain `ChatCompletion`: the code reads `choices[0].message.content` and
`usage` (which may be `None`). -/
structure ChatCompletion where
  choices : List ChatChoice
  usage : Option TokensUsage
  deriving DecidableEq, Repr

/-- `ExtractedOutput` Pydantic model: indices of relevant sentences. -/
structure ExtractedOutput where
  indices : List Int
  deriving DecidableEq, Repr

/-- `FilteredWithSentimentQuotesOutput` Pydantic model. -/
structure FilteredWithSentimentQuotesOutput where
  related_indices : List Int
  sentiment_scores : List Int
  deriving DecidableEq, Repr

/-- `Result` Pydantic model: merged quotes plus sentiment scores, both
defaulting to the empty list. -/
structure Result where
  quotes : List String := []
  sentiment_scores : List Int := []
  deriving DecidableEq, Repr

/-- The provider selector `fetch_type`. -/
inductive FetchType where
  | groq
  | furiosa
  | openai
  deriving DecidableEq, Repr

/-- The string name used as key of the usage dictionary. -/
def FetchType.name : FetchType → String
  | .groq => "groq"
  | .furiosa => "furiosa"
  | .openai => "openai"

/-- `extraction_type` selector. -/
inductive ExtractionType where
  | theme
  | overall
  deriving DecidableEq, Repr

/-- Prompt message lists, kept opaque: the four template builders of
`src/scoring/messages` are external collaborators, so a message list is
identified by which builder produced it and with which arguments. -/
inductive Messages where
  | themeExtracting (company theme formattedText : String)
  | overallExtracting (company formattedText : String)
  | themeFiltering (company theme formattedText : String)
  | overallFiltering (company formattedText : String)
  deriving DecidableEq, Repr

/-- The transports of the module-level provider clients, as oracles: each
field is one underlying SDK/network call that either returns a completion or
raises. -/
structure Providers (α : Type) where
  /-- `openai client.beta.chat.completions.parse(**kwargs)` as called by
  `AsyncOpenAIAPIFetcher.fetch_parsed_completion`. -/
  openaiParsedCompletion : Messages → Except PyErr (ParsedChatCompletion α)
  /-- `openai client.beta.chat.completions.parse(...)` on the canonicalizing
  prompt built by `AsyncOpenAIAPIFetcher.fetch_parsed_output` around raw
  content. -/
  openaiParseOutput : String → Except PyErr (ParsedChatCompletion α)
  /-- `AsyncGroqAPIFetcher.fetch_chat_completion` transport. -/
  groqChatCompletion : Messages → Except PyErr ChatCompletion
  /-- `AsyncFuriosaAPIFetcher.fetch_chat_completion` transport. -/
  furiosaChatCompletion : Messages → Except PyErr ChatCompletion

/- ------------------------------------------------------------------
`src/scoring/utils.py`: retry policy, sentence segmentation, chunkers.
------------------------------------------------------------------ -/

/-- `DEFAULT_EMPTY_PARSED_COMPLETION` from `src/scoring/_default.py`. -/
def DEFAULT_EMPTY_PARSED_COMPLETION (α : Type) : ParsedChatCompletion α :=
  { id := ""
    choices := [{ finish_reason := "stop", index := 0
                  message := { role := "assistant", parsed := none } }]
    created := 0
    model := ""
    object := "chat.completion"
    usage := none }

/-- `handle_max_retries`: the tenacity retry-exhaustion callback; it logs and
returns the default empty parsed completion (logging is not modelled). -/
def handle_max_retries (α : Type) : ParsedChatCompletion α :=
  DEFAULT_EMPTY_PARSED_COMPLETION α

/-- Semantics of a tenacity `retry(stop_after_attempt(maxRetries),
wait_fixed(w), retry_error_callback=cb)` wrapper around a call: the call is
attempted up to `maxRetries` times (the attempt number is passed to the call
oracle); the first successful value is returned; when every attempt raises,
the callback value `onExhausted` is returned instead of the exception.  The
fixed wait affects timing only and is not modelled. -/
def retryFetchRun {β : Type} (maxRetries : Nat) (call : Nat → Except PyErr β)
    (onExhausted : β) : β :=
  match maxRetries with
  | 0 => onExhausted
  | k + 1 =>
    match call 0 with
    | .ok v => v
    | .error _ => retryFetchRun k (fun attempt => call (attempt + 1)) onExhausted

/-- `retry_fetch(wait_seconds, max_retries)` applied to a fetch call: retry
with fixed attempt count, degrading to `handle_max_retries` on exhaustion. -/
def retry_fetch {α : Type} (max_retries : Nat)
    (call : Nat → Except PyErr (ParsedChatCompletion α)) : ParsedChatCompletion α :=
  retryFetchRun max_retries call (handle_max_retries α)

/-- `get_sentences`: split the text on newlines, then tokenize each line into
sentences with the (external) NLTK tokenizer and concatenate in order. -/
def get_sentences (sent_tokenize : String → List String) (text : String) :
    List String :=
  ((pySplit '\n' text).map sent_tokenize).flatten

/-- `split_transcript_into_n`: split a transcript into `n` parts by lines;
`n = 1` returns the whole text, `n = 0` raises ValueError; otherwise `n`
groups of `len // n` lines each are formed and any remainder lines are
appended to the last group. -/
def split_transcript_into_n (text : String) (n : Nat) : Except PyErr (List String) :=
  if n < 2 then
    if n = 1 then .ok [text]
    else .error (.valueError "The number of parts (n) must be 1 or greater.")
  else
    let sections := pySplit '\n' text
    let total_length := sections.length
    let split_size := total_length / n
    let parts := (List.range n).map
      (fun i => pySlice sections (i * split_size) ((i + 1) * split_size))
    let remaining_sections := sections.drop (n * split_size)
    let parts' := if remaining_sections.isEmpty then parts
                  else extendLast parts remaining_sections
    .ok (parts'.map (pyJoin '\n'))

/-- `split_list_into_n`: floor-boundary slicing `lst[i*len//n : (i+1)*len//n]`
for `i` in `range(n)`, dropping empty slices. -/
def split_list_into_n {α : Type} (lst : List α) (n : Nat) : List (List α) :=
  ((List.range n).map
    (fun i => pySlice lst (i * lst.length / n) ((i + 1) * lst.length / n))).filter
    (fun s => !s.isEmpty)

/- ------------------------------------------------------------------
`src/scoring/api_fetcher.py`: the provider fetch methods.  In the source the
`retry_fetch(0.01, 1)` lines above each method are bare expression
statements, not decorators (no `@`), so the methods are NOT wrapped by the
retry policy; they are embedded exactly as written, as direct transport
calls.
------------------------------------------------------------------ -/

/-- `AsyncOpenAIAPIFetcher.fetch_parsed_completion` as written in the source:
a direct call of the client transport (the `retry_fetch(0.01, 1)` line above
it in the source is not a decorator and has no effect). -/
def fetch_parsed_completion {α : Type}
    (clientParse : Messages → Except PyErr (ParsedChatCompletion α))
    (messages : Messages) : Except PyErr (ParsedChatCompletion α) :=
  clientParse messages

/-- `AsyncOpenAIAPIFetcher.fetch_parsed_output` as written in the source: a
direct call of the client transport on the canonicalizing prompt built around
`content` (the prompt text is absorbed into the oracle). -/
def fetch_parsed_output {α : Type}
    (clientParse : String → Except PyErr (ParsedChatCompletion α))
    (content : String) : Except PyErr (ParsedChatCompletion α) :=
  clientParse content

/-- `fetch_chat_completion` of the groq/furiosa fetchers: a direct transport
call (again, no retry wrapper is applied in the source). -/
def fetch_chat_completion
    (clientCall : Messages → Except PyErr ChatCompletion)
    (messages : Messages) : Except PyErr ChatCompletion :=
  clientCall messages

/- ------------------------------------------------------------------
`src/scoring/fetch.py`: structured parsing, extraction and filtering.
------------------------------------------------------------------ -/

/-- Python attribute access on a possibly-`None` parsed object
(`None.indices` / `None.related_indices` raises AttributeError). -/
def pyGetParsedAttr {α : Type} (parsed : Option α) : Except PyErr α :=
  match parsed with
  | none => .error (.attributeError "NoneType object has no attribute")
  | some v => .ok v

/-- Python `usage.model_dump()` where `usage` may be `None`. -/
def pyGetUsageDump (usage : Option TokensUsage) : Except PyErr TokensUsage :=
  match usage with
  | none => .error (.attributeError "NoneType object has no attribute model_dump")
  | some u => .ok u

/-- The two-step path of `fetch_parsed` for groq/furiosa: fetch a free-text
chat completion, then re-submit `choices[0].message.content` to the OpenAI
structured parser and unwrap that response; usage is keyed by both provider
names. -/
def fetchParsedViaOpenAI {α : Type} (P : Providers α)
    (chatResult : Except PyErr ChatCompletion) (ftName : String) :
    Except PyErr (Option α × UsageMap) := do
  let llama_chat_completion ← chatResult
  let c0 ← pyIndex llama_chat_completion.choices 0
  let openai_parsed_completion ← fetch_parsed_output P.openaiParseOutput c0.message.content
  let pc0 ← pyIndex openai_parsed_completion.choices 0
  let llama_usage := llama_chat_completion.usage
  let oa_usage ← pyGetUsageDump openai_parsed_completion.usage
  pure (pc0.message.parsed, [(ftName, llama_usage), ("openai", some oa_usage)])

/-- `fetch_parsed`: route the request per `fetch_type`; the openai path asks
for schema-constrained output directly and unwraps
`choices[0].message.parsed`, the other paths go through the two-step
canonicalization. -/
def fetch_parsed {α : Type} (P : Providers α) (messages : Messages)
    (fetch_type : FetchType) : Except PyErr (Option α × UsageMap) :=
  match fetch_type with
  | .groq => fetchParsedViaOpenAI P (fetch_chat_completion P.groqChatCompletion messages) "groq"
  | .furiosa => fetchParsedViaOpenAI P (fetch_chat_completion P.furiosaChatCompletion messages) "furiosa"
  | .openai => do
    let openai_parsed_completion ← fetch_parsed_completion P.openaiParsedCompletion messages
    let c0 ← pyIndex openai_parsed_completion.choices 0
    let usage ← pyGetUsageDump openai_parsed_completion.usage
    pure (c0.message.parsed, [("openai", some usage)])

/-- The numbered-quote block built inside the extraction chunk task. -/
def formatExtractChunk (chunk_text_dict : List (Int × String)) : String :=
  pyJoin '\n' (chunk_text_dict.map
    (fun kv => "**Quote " ++ toString kv.1 ++ "**. " ++ kv.2.trim))

/-- Prompt selection of the extraction chunk task; raising ValueError when a
theme extraction has no theme.  This happens BEFORE the `try` block in the
source. -/
def buildExtractMessages (company_name : String) (extraction_type : ExtractionType)
    (theme : Option String) (formatted_text : String) : Except PyErr Messages :=
  match extraction_type with
  | .theme =>
    match theme with
    | none => .error (.valueError "No theme specified")
    | some t => .ok (.themeExtracting company_name t formatted_text)
  | .overall => .ok (.overallExtracting company_name formatted_text)

/-- Body of the `try` block of the extraction chunk task: fetch the parsed
output and keep `chunk_text_dict[i]` for every returned index that is a key
of the chunk dictionary. -/
def extractTryBody (P : Providers ExtractedOutput) (messages : Messages)
    (fetch_type : FetchType) (chunk_text_dict : List (Int × String)) :
    Except PyErr (List String × UsageMap) := do
  let (parsedOpt, usage) ← fetch_parsed P messages fetch_type
  let extracted_output ← pyGetParsedAttr parsedOpt
  let quotes := extracted_output.indices.filterMap
    (fun i => chunk_text_dict.lookup i)
  pure (quotes, usage)

/-- `fetch_chunk` nested in `_fetch_extracted_output`: the ValueError for a
missing theme is raised before the `try` and therefore propagates; every
exception inside the `try` degrades to `([], {})`. -/
def fetch_chunk_extract (P : Providers ExtractedOutput) (company_name : String)
    (extraction_type : ExtractionType) (fetch_type : FetchType)
    (theme : Option String) (chunk_text_dict : List (Int × String)) :
    Except PyErr (List String × UsageMap) := do
  let formatted_text := formatExtractChunk chunk_text_dict
  let messages ← buildExtractMessages company_name extraction_type theme formatted_text
  pure (match extractTryBody P messages fetch_type chunk_text_dict with
    | .ok r => r
    | .error _ => ([], []))

/-- The sub-chunk dictionaries of `_fetch_extracted_output`: the sentence
list is enumerated and cut into dictionaries of at most `max_size`
consecutive (index, sentence) pairs. -/
def buildTextChunks (lines : List String) (max_size : Nat) :
    List (List (Int × String)) :=
  (rangeStep lines.length max_size).map (fun start =>
    (List.range' start (min (start + max_size) lines.length - start)).map
      (fun i => (Int.ofNat i, lines.getD i "")))

/-- The aggregation loop of `_fetch_extracted_output`: concatenate non-empty
chunk quote lists in task order; collect every chunk usage. -/
def aggregateExtract (results : List (List String × UsageMap)) :
    Result × List UsageMap :=
  ({ quotes := results.foldl (fun acc r => if r.1.isEmpty then acc else acc ++ r.1) []
     sentiment_scores := [] },
   results.map (fun r => r.2))

/-- `_fetch_extracted_output`: segment the text into sentences, build the
sub-chunks, run every chunk task (gather aligns results with task order and
propagates the first raised exception), aggregate. -/
def _fetch_extracted_output (sent_tokenize : String → List String)
    (P : Providers ExtractedOutput) (company_name : String) (text : String)
    (extraction_type : ExtractionType) (fetch_type : FetchType)
    (theme : Option String) (max_size : Nat) :
    Except PyErr (Result × List UsageMap) := do
  let lines := get_sentences sent_tokenize text
  let text_chunks := buildTextChunks lines max_size
  let results ← gatherExcept
    (fetch_chunk_extract P company_name extraction_type fetch_type theme) text_chunks
  pure (aggregateExtract results)

/-- `fetch_extracted_output`: split the transcript into `num_split` parts,
run `_fetch_extracted_output` (with its default `max_size = 20`) on each part
and concatenate the partial results in task order. -/
def fetch_extracted_output (sent_tokenize : String → List String)
    (P : Providers ExtractedOutput) (company_name : String) (text : String)
    (extraction_type : ExtractionType) (fetch_type : FetchType)
    (theme : Option String) (num_split : Nat) :
    Except PyErr (Result × List (List UsageMap)) := do
  let split_texts ← split_transcript_into_n text num_split
  let results ← gatherExcept (fun t =>
    _fetch_extracted_output sent_tokenize P company_name t extraction_type
      fetch_type theme 20) split_texts
  pure (results.foldl
    (fun acc r =>
      ({ quotes := acc.1.quotes ++ r.1.quotes
         sentiment_scores := acc.1.sentiment_scores }, acc.2 ++ [r.2]))
    ({ quotes := [], sentiment_scores := [] }, []))

/-- The numbered-quote block built inside the filtering chunk task
(`enumerate(chunk_quotes)`). -/
def formatFilterChunk (chunk_quotes : List String) : String :=
  pyJoin '\n' (chunk_quotes.enum.map
    (fun iv => "**Quotes " ++ toString iv.1 ++ "**. " ++ iv.2.trim))

/-- Prompt selection of the filtering chunk task; raising ValueError when a
theme filtering has no theme, again BEFORE the `try` block. -/
def buildFilterMessages (company_name : String) (extraction_type : ExtractionType)
    (theme : Option String) (formatted_quotes : String) : Except PyErr Messages :=
  match extraction_type with
  | .theme =>
    match theme with
    | none => .error (.valueError "No theme specified")
    | some t => .ok (.themeFiltering company_name t formatted_quotes)
  | .overall => .ok (.overallFiltering company_name formatted_quotes)

/-- Body of the `try` block of the filtering chunk task.  The provider call
is dispatched with the literal `fetch_type="openai"`; the kept quotes are
`chunk_quotes[i]` for every related index with `i < len(chunk_quotes)`
(Python indexing, so a negative `i` wraps around); the sentiment scores are
copied unfiltered. -/
def filterTryBody (P : Providers FilteredWithSentimentQuotesOutput)
    (messages : Messages) (chunk_quotes : List String) :
    Except PyErr (List String × List Int × UsageMap) := do
  let (parsedOpt, usage) ← fetch_parsed P messages FetchType.openai
  let filtered_output ← pyGetParsedAttr parsedOpt
  let filtered_quotes ← gatherExcept (pyIndex chunk_quotes)
    (filtered_output.related_indices.filter
      (fun i => i < (chunk_quotes.length : Int)))
  let filtered_sentiments := filtered_output.sentiment_scores.map (fun i => i)
  pure (filtered_quotes, filtered_sentiments, usage)

/-- `fetch_chunk` nested in `_fetch_filtered_output`: missing-theme
ValueError propagates; every exception inside the `try` degrades to
`([], [], {})`. -/
def fetch_chunk_filter (P : Providers FilteredWithSentimentQuotesOutput)
    (company_name : String) (extraction_type : ExtractionType)
    (fetch_type : FetchType) (theme : Option String)
    (chunk_quotes : List String) :
    Except PyErr (List String × List Int × UsageMap) := do
  let formatted_quotes := formatFilterChunk chunk_quotes
  let messages ← buildFilterMessages company_name extraction_type theme formatted_quotes
  pure (match filterTryBody P messages chunk_quotes with
    | .ok r => r
    | .error _ => ([], [], []))

/-- The aggregation loop of `_fetch_filtered_output`: concatenate non-empty
chunk quote lists and non-empty chunk sentiment lists in task order; collect
every chunk usage. -/
def aggregateFilter (results : List (List String × List Int × UsageMap)) :
    Result × List UsageMap :=
  (results.foldl (fun acc r =>
      { quotes := if r.1.isEmpty then acc.quotes else acc.quotes ++ r.1
        sentiment_scores := if r.2.1.isEmpty then acc.sentiment_scores
                            else acc.sentiment_scores ++ r.2.1 })
    { quotes := [], sentiment_scores := [] },
   results.map (fun r => r.2.2))

/-- `_fetch_filtered_output`: cut the quote list into chunks of at most
`max_size`, run every chunk task, aggregate. -/
def _fetch_filtered_output (P : Providers FilteredWithSentimentQuotesOutput)
    (company_name : String) (quotes : List String)
    (extraction_type : ExtractionType) (fetch_type : FetchType)
    (theme : Option String) (max_size : Nat) :
    Except PyErr (Result × List UsageMap) := do
  let quote_chunks := (rangeStep quotes.length max_size).map
    (fun i => pySlice quotes i (i + max_size))
  let results ← gatherExcept
    (fetch_chunk_filter P company_name extraction_type fetch_type theme) quote_chunks
  pure (aggregateFilter results)

/-- `fetch_filtered_output`: split the quotes into `num_split` chunks, run
`_fetch_filtered_output` (default `max_size = 20`) on each and concatenate
quotes and sentiment scores in task order. -/
def fetch_filtered_output (P : Providers FilteredWithSentimentQuotesOutput)
    (company_name : String) (quotes : List String)
    (extraction_type : ExtractionType) (fetch_type : FetchType)
    (theme : Option String) (num_split : Nat) :
    Except PyErr (Result × List (List UsageMap)) := do
  let split_quotes := split_list_into_n quotes num_split
  let results ← gatherExcept (fun q =>
    _fetch_filtered_output P company_name q extraction_type fetch_type theme 20) split_quotes
  pure (results.foldl
    (fun acc r =>
      ({ quotes := acc.1.quotes ++ r.1.quotes
         sentiment_scores := acc.1.sentiment_scores ++ r.1.sentiment_scores },
       acc.2 ++ [r.2]))
    ({ quotes := [], sentiment_scores := [] }, []))

/- ------------------------------------------------------------------
`run.py`: orchestrator resume / skip logic (`main` and `_main`).  The JSON
parser is an external collaborator and is passed as an oracle returning the
`custom_id` field (or a decode error); the LLM stages themselves are
irrelevant to the resume logic and are represented only through which tickers
they get invoked for.
------------------------------------------------------------------ -/

/-- A parsed output-file line, reduced to the field the scan reads
(`data.get("custom_id", "")`). -/
structure OutRecord where
  custom_id : String
  deriving DecidableEq, Repr

/-- One dataset example with the fields `_main` reads. -/
structure TranscriptExample where
  ticker : String
  event_start_at_et : String
  text : String
  deriving DecidableEq, Repr

/-- Python `line.strip()`: drop leading and trailing whitespace (defined
structurally so that concrete instances evaluate). -/
def pyStrip (s : String) : String :=
  String.mk (((s.data.dropWhile Char.isWhitespace).reverse.dropWhile
    Char.isWhitespace).reverse)

/-- Python `custom_id.startswith("task-")`. -/
def startsWithTask (s : String) : Bool :=
  match s.data with
  | 't' :: 'a' :: 's' :: 'k' :: '-' :: _ => true
  | _ => false

/-- The per-line step of the resume scan in `main`: strip the line, skip it
when blank or when JSON decoding fails, and otherwise record
`custom_id.split("-")[1]` whenever the id starts with `"task-"` and has at
least two dash-separated fields. -/
def lineTicker (parse_json : String → Except Unit OutRecord) (line : String) :
    Option String :=
  let stripped := pyStrip line
  if stripped = "" then none
  else
    match parse_json stripped with
    | .error _ => none
    | .ok data =>
      if startsWithTask data.custom_id then
        let parts := pySplit '-' data.custom_id
        if 1 < parts.length then some (parts.getD 1 "") else none
      else none

/-- The resume scan over the existing overall output file: the set of already
processed tickers (represented as a list; only membership matters). -/
def scanProcessedTickers (parse_json : String → Except Unit OutRecord)
    (lines : List String) : List String :=
  lines.filterMap (lineTicker parse_json)

/-- The dataset filter of `main`: keep an example only when its ticker is not
in the processed set (the source writes this as
`any(ticker not in processed[key] for key in ["overall"])`). -/
def filteredDataset (parse_json : String → Except Unit OutRecord)
    (lines : List String) (dataset : List TranscriptExample) :
    List TranscriptExample :=
  let processed := scanProcessedTickers parse_json lines
  dataset.filter (fun ex => !(processed.contains ex.ticker))

/-- The tickers for which the processing loop of `main` actually reaches the
extraction/filtering stages: `process_overall` additionally returns early
when the ticker is in the processed set. -/
def mainInvokedTickers (parse_json : String → Except Unit OutRecord)
    (lines : List String) (dataset : List TranscriptExample) : List String :=
  let processed := scanProcessedTickers parse_json lines
  ((filteredDataset parse_json lines dataset).filter
    (fun ex => !(processed.contains ex.ticker))).map (fun ex => ex.ticker)

/-- The tickers for which `main` appends a line to the overall output file:
a line is appended exactly when `overall_result` is non-empty, i.e. when
`process_overall` did not return early. -/
def mainAppendedTickers (parse_json : String → Except Unit OutRecord)
    (lines : List String) (dataset : List TranscriptExample) : List String :=
  let processed := scanProcessedTickers parse_json lines
  (filteredDataset parse_json lines dataset).filterMap (fun ex =>
    if processed.contains ex.ticker then none else some ex.ticker)

/- ------------------------------------------------------------------
Concrete oracles used by the theorems below.
------------------------------------------------------------------ -/

/-- A sentence tokenizer model for single-sentence lines: NLTK returns the
line itself for a line that is one sentence, and nothing for an empty
line. -/
def tokSimple : String → List String := fun s => if s = "" then [] else [s]

/-- A fixed usage value for concrete scenarios. -/
def usageA : TokensUsage := ⟨10, 5, 15⟩

/-- An extraction provider whose structured-output call always succeeds with
the given parsed output and usage, and whose other transports are unused. -/
def extractOracle (out : ExtractedOutput) (u : TokensUsage) :
    Providers ExtractedOutput :=
  { openaiParsedCompletion := fun _ => .ok
      { choices := [{ message := { parsed := some out } }], usage := some u }
    openaiParseOutput := fun _ => .error (.other "unused")
    groqChatCompletion := fun _ => .error (.other "unused")
    furiosaChatCompletion := fun _ => .error (.other "unused") }

/-- A filtering provider whose structured-output call always succeeds with
the given parsed output and usage. -/
def filterOracle (out : FilteredWithSentimentQuotesOutput) (u : TokensUsage) :
    Providers FilteredWithSentimentQuotesOutput :=
  { openaiParsedCompletion := fun _ => .ok
      { choices := [{ message := { parsed := some out } }], usage := some u }
    openaiParseOutput := fun _ => .error (.other "unused")
    groqChatCompletion := fun _ => .error (.other "unused")
    furiosaChatCompletion := fun _ => .error (.other "unused") }

/-- A provider whose every transport raises the given exception. -/
def raisingProviders (α : Type) (e : PyErr) : Providers α :=
  { openaiParsedCompletion := fun _ => .error e
    openaiParseOutput := fun _ => .error e
    groqChatCompletion := fun _ => .error e
    furiosaChatCompletion := fun _ => .error e }

/- ------------------------------------------------------------------
Lemmas about the Python string split/join model.
------------------------------------------------------------------ -/


theorem splitChar_ne_nil (sep : Char) (s : List Char) : splitChar sep s ≠ [] := by
  cases s with
  | nil => simp [splitChar]
  | cons c rest =>
    simp only [splitChar]
    cases h : splitChar sep rest with
    | nil => simp
    | cons hd tl =>
      by_cases hc : c = sep <;> simp [hc]

theorem splitChar_cons_eq (sep c : Char) (rest hd : List Char) (tl : List (List Char))
    (h : splitChar sep rest = hd :: tl) :
    splitChar sep (c :: rest) = if c = sep then [] :: hd :: tl else (c :: hd) :: tl := by
  simp [splitChar, h]

theorem joinChar_cons_cons (sep c : Char) (h : List Char) (t : List (List Char)) :
    joinChar sep ((c :: h) :: t) = c :: joinChar sep (h :: t) := by
  cases t with
  | nil => simp [joinChar]
  | cons q qs => simp [joinChar]

theorem joinChar_splitChar (sep : Char) (s : List Char) :
    joinChar sep (splitChar sep s) = s := by
  induction s with
  | nil => simp [splitChar, joinChar]
  | cons c rest ih =>
    cases h : splitChar sep rest with
    | nil => exact absurd h (splitChar_ne_nil sep rest)
    | cons hd tl =>
      rw [h] at ih
      rw [splitChar_cons_eq sep c rest hd tl h]
      by_cases hc : c = sep
      · subst hc
        simp only [if_pos rfl]
        cases tl with
        | nil => simpa [joinChar] using ih
        | cons q qs => simpa [joinChar] using ih
      · rw [if_neg hc, joinChar_cons_cons, ih]

theorem not_mem_of_mem_splitChar (sep : Char) (s : List Char) :
    ∀ p ∈ splitChar sep s, sep ∉ p := by
  induction s with
  | nil => simp [splitChar]
  | cons c rest ih =>
    cases h : splitChar sep rest with
    | nil => exact absurd h (splitChar_ne_nil sep rest)
    | cons hd tl =>
      rw [h] at ih
      rw [splitChar_cons_eq sep c rest hd tl h]
      by_cases hc : c = sep
      · subst hc
        simp only [if_pos rfl]
        intro p hp
        rcases List.mem_cons.mp hp with rfl | hp2
        · simp
        · exact ih p hp2
      · rw [if_neg hc]
        intro p hp
        rcases List.mem_cons.mp hp with rfl | hp2
        · have hhd := ih hd (by simp)
          simp only [List.mem_cons]
          rintro (h1 | h1)
          · exact hc h1.symm
          · exact hhd h1
        · exact ih p (List.mem_cons_of_mem hd hp2)


theorem splitChar_of_not_mem (sep : Char) (l : List Char) (h : sep ∉ l) :
    splitChar sep l = [l] := by
  induction l with
  | nil => simp [splitChar]
  | cons c rest ih =>
    have hc : c ≠ sep := by
      intro hcon
      exact h (by simp [hcon])
    have hrest : sep ∉ rest := fun hm => h (by simp [hm])
    rw [splitChar_cons_eq sep c rest rest [] (ih hrest), if_neg hc]

theorem splitChar_append_sep (sep : Char) (l r : List Char) (h : sep ∉ l) :
    splitChar sep (l ++ sep :: r) = l :: splitChar sep r := by
  induction l with
  | nil =>
    cases hr : splitChar sep r with
    | nil => exact absurd hr (splitChar_ne_nil sep r)
    | cons hd tl =>
      simpa using splitChar_cons_eq sep sep r hd tl hr
  | cons c rest ih =>
    have hc : c ≠ sep := by
      intro hcon
      exact h (by simp [hcon])
    have hrest : sep ∉ rest := fun hm => h (by simp [hm])
    have ih' := ih hrest
    cases hr : splitChar sep r with
    | nil => exact absurd hr (splitChar_ne_nil sep r)
    | cons hd tl =>
      rw [hr] at ih'
      have step := splitChar_cons_eq sep c (rest ++ sep :: r) rest (hd :: tl) ih'
      rw [if_neg hc] at step
      simpa [hr] using step

theorem splitChar_joinChar (sep : Char) (g : List (List Char)) (hne : g ≠ [])
    (hclean : ∀ p ∈ g, sep ∉ p) : splitChar sep (joinChar sep g) = g := by
  induction g with
  | nil => exact absurd rfl hne
  | cons p gs ih =>
    cases gs with
    | nil =>
      simp only [joinChar]
      exact splitChar_of_not_mem sep p (hclean p (by simp))
    | cons q qs =>
      have hstep : joinChar sep (p :: q :: qs) = p ++ sep :: joinChar sep (q :: qs) := by
        simp [joinChar]
      rw [hstep, splitChar_append_sep sep p _ (hclean p (by simp)),
        ih (by simp) (fun x hx => hclean x (by simp [hx]))]

theorem joinChar_cons_two (sep : Char) (x y : List Char) (t : List (List Char)) :
    joinChar sep (x :: y :: t) = x ++ sep :: joinChar sep (y :: t) := by
  simp [joinChar]

theorem joinChar_append_of_ne_nil (sep : Char) (a b : List (List Char))
    (ha : a ≠ []) (hb : b ≠ []) :
    joinChar sep (a ++ b) = joinChar sep a ++ sep :: joinChar sep b := by
  induction a with
  | nil => exact absurd rfl ha
  | cons x a' ih =>
    cases a' with
    | nil =>
      cases b with
      | nil => exact absurd rfl hb
      | cons y b' =>
        simp only [List.singleton_append]
        rw [joinChar_cons_two]
        simp [joinChar]
    | cons z a'' =>
      have ih' := ih (by simp)
      calc joinChar sep ((x :: z :: a'') ++ b)
          = x ++ sep :: joinChar sep ((z :: a'') ++ b) := by
            simp only [List.cons_append]
            exact joinChar_cons_two sep x z (a'' ++ b)
        _ = x ++ sep :: (joinChar sep (z :: a'') ++ sep :: joinChar sep b) := by rw [ih']
        _ = joinChar sep (x :: z :: a'') ++ sep :: joinChar sep b := by
            rw [joinChar_cons_two sep x z a'']
            simp [List.append_assoc]

theorem joinChar_map_joinChar (sep : Char) (groups : List (List (List Char)))
    (h : ∀ g ∈ groups, g ≠ []) :
    joinChar sep (groups.map (joinChar sep)) = joinChar sep groups.flatten := by
  induction groups with
  | nil => simp
  | cons g gs ih =>
    cases gs with
    | nil => simp [joinChar]
    | cons g' gs' =>
      have hg : g ≠ [] := h g (by simp)
      have hflat : (g' :: gs').flatten ≠ [] := by
        have hg' : g' ≠ [] := h g' (by simp)
        simp only [List.flatten_cons]
        intro hcon
        exact hg' (List.append_eq_nil.mp hcon).1
      have ih' := ih (fun x hx => h x (by simp at hx ⊢; tauto))
      calc joinChar sep ((g :: g' :: gs').map (joinChar sep))
          = joinChar sep g ++ sep :: joinChar sep ((g' :: gs').map (joinChar sep)) := by
            simp only [List.map_cons]
            exact joinChar_cons_two sep (joinChar sep g) (joinChar sep g') (gs'.map (joinChar sep))
        _ = joinChar sep g ++ sep :: joinChar sep (g' :: gs').flatten := by
            rw [ih']
        _ = joinChar sep (g ++ (g' :: gs').flatten) :=
            (joinChar_append_of_ne_nil sep g _ hg hflat).symm
        _ = joinChar sep (g :: g' :: gs').flatten := by
            conv_rhs => rw [List.flatten_cons]

theorem String.mk_data_eq (s : String) : String.mk s.data = s := by cases s; rfl

theorem map_mk_data (l : List String) : (l.map String.data).map String.mk = l := by
  rw [List.map_map]
  have h : ∀ a ∈ l, (String.mk ∘ String.data) a = id a := by
    intro a _
    cases a
    rfl
  rw [List.map_congr_left h, List.map_id]

theorem pyJoin_pySplit (sep : Char) (s : String) : pyJoin sep (pySplit sep s) = s := by
  cases s with
  | mk data =>
    simp only [pyJoin, pySplit, List.map_map]
    have h : (List.map (String.data ∘ String.mk) (splitChar sep data)) = splitChar sep data := by
      have h2 : ∀ a ∈ splitChar sep data, (String.data ∘ String.mk) a = id a := by
        intro a _
        rfl
      rw [List.map_congr_left h2, List.map_id]
    rw [h, joinChar_splitChar]

theorem pySplit_clean (sep : Char) (s : String) :
    ∀ p ∈ pySplit sep s, sep ∉ p.data := by
  intro p hp
  simp only [pySplit, List.mem_map] at hp
  obtain ⟨q, hq, rfl⟩ := hp
  exact not_mem_of_mem_splitChar sep s.data q hq

theorem pySplit_pyJoin (sep : Char) (parts : List String) (hne : parts ≠ [])
    (hclean : ∀ p ∈ parts, sep ∉ p.data) :
    pySplit sep (pyJoin sep parts) = parts := by
  simp only [pySplit, pyJoin]
  rw [splitChar_joinChar sep (parts.map String.data)
    (by simpa using hne)
    (by intro q hq
        simp only [List.mem_map] at hq
        obtain ⟨p, hp, rfl⟩ := hq
        exact hclean p hp)]
  exact map_mk_data parts

theorem pyJoin_map_pyJoin (sep : Char) (groups : List (List String))
    (h : ∀ g ∈ groups, g ≠ []) :
    pyJoin sep (groups.map (pyJoin sep)) = pyJoin sep groups.flatten := by
  simp only [pyJoin]
  have h1 : (groups.map (pyJoin sep)).map String.data
      = (groups.map (List.map String.data)).map (joinChar sep) := by
    simp only [List.map_map]
    rfl
  rw [h1, joinChar_map_joinChar sep _
    (by intro g hg
        simp only [List.mem_map] at hg
        obtain ⟨g', hg', rfl⟩ := hg
        simpa using h g' hg')]
  have h2 : (groups.map (List.map String.data)).flatten = (groups.flatten).map String.data := by
    rw [List.map_flatten]
  rw [h2]

/- ------------------------------------------------------------------
Lemmas about Python slices and the chunkers.
------------------------------------------------------------------ -/

theorem length_pySlice {α : Type} (l : List α) (a b : Nat) :
    (pySlice l a b).length = min b l.length - a := by
  simp [pySlice]

theorem pySlice_append {α : Type} (l : List α) (a b c : Nat) (h1 : a ≤ b) (h2 : b ≤ c) :
    pySlice l a b ++ pySlice l b c = pySlice l a c := by
  unfold pySlice
  have htake : l.take b = (l.take c).take b := by
    rw [List.take_take, Nat.min_eq_left h2]
  rw [htake]
  by_cases hc : a ≤ ((l.take c).take b).length
  · conv_rhs => rw [← List.take_append_drop b (l.take c)]
    rw [List.drop_append_of_le_length hc]
  · push_neg at hc
    have e1 : ((l.take c).take b).length = min b (l.take c).length :=
      List.length_take b (l.take c)
    have e2 : (l.take c).length ≤ a := by omega
    rw [List.drop_eq_nil_of_le (by omega), List.drop_eq_nil_of_le (by omega),
      List.drop_eq_nil_of_le e2]
    simp

theorem flatten_boundary_slices {α : Type} (L : List α) (f : Nat → Nat)
    (hmono : ∀ i j, i ≤ j → f i ≤ f j) (n : Nat) :
    (((List.range n).map (fun i => pySlice L (f i) (f (i + 1)))).flatten)
      = pySlice L (f 0) (f n) := by
  induction n with
  | zero =>
    simp only [List.range_zero, List.map_nil, List.flatten_nil]
    unfold pySlice
    refine (List.drop_eq_nil_of_le ?_).symm
    rw [List.length_take]
    exact Nat.min_le_left _ _
  | succ n ih =>
    rw [List.range_succ, List.map_append, List.flatten_append]
    simp only [List.map_cons, List.map_nil, List.flatten_cons, List.flatten_nil,
      List.append_nil]
    rw [ih, pySlice_append L (f 0) (f n) (f (n + 1)) (hmono 0 n (by omega))
      (hmono n (n + 1) (by omega))]

theorem flatten_filter_nonempty {α : Type} (l : List (List α)) :
    (l.filter (fun s => !s.isEmpty)).flatten = l.flatten := by
  induction l with
  | nil => rfl
  | cons x xs ih =>
    by_cases hx : x.isEmpty
    · have hxnil : x = [] := by simpa using hx
      subst hxnil
      simpa [List.filter_cons] using ih
    · simp only [List.filter_cons]
      simp only [hx, Bool.not_false, List.flatten_cons, ih]
      simp [List.flatten_cons, ih]

/-- Claim C3: for every non-empty list `L` and every `n` with
`1 ≤ n ≤ L.length`, concatenating the sublists emitted by
`split_list_into_n L n` in order reconstructs `L` exactly (dropped empty
slices never break reconstruction). -/
theorem split_list_into_n_reconstructs {α : Type} (L : List α) (n : Nat)
    (hL : L ≠ []) (h1 : 1 ≤ n) (h2 : n ≤ L.length) :
    (split_list_into_n L n).flatten = L := by
  unfold split_list_into_n
  rw [flatten_filter_nonempty]
  have hmono : ∀ i j, i ≤ j → i * L.length / n ≤ j * L.length / n := by
    intro i j hij
    exact Nat.div_le_div_right (Nat.mul_le_mul_right _ hij)
  rw [flatten_boundary_slices L (fun i => i * L.length / n) hmono n]
  have h0 : 0 * L.length / n = 0 := by simp
  have hn : n * L.length / n = L.length := by
    rw [Nat.mul_div_cancel_left _ (by omega : 0 < n)]
  rw [h0, hn]
  simp [pySlice]

/-- Witness for C3 at `L = [1, 2, 3]`, `n = 2`. -/
theorem split_list_into_n_reconstructs_witness :
    ([1, 2, 3] : List Nat) ≠ [] ∧ 1 ≤ 2 ∧ 2 ≤ ([1, 2, 3] : List Nat).length ∧
      (split_list_into_n ([1, 2, 3] : List Nat) 2).flatten = [1, 2, 3] :=
  ⟨by decide, by decide, by decide,
    split_list_into_n_reconstructs [1, 2, 3] 2 (by decide) (by decide) (by decide)⟩

theorem extendLast_append {α : Type} (l : List (List α)) (x r : List α) :
    extendLast (l ++ [x]) r = l ++ [x ++ r] := by
  induction l with
  | nil => rfl
  | cons p l' ih =>
    cases l' with
    | nil => rfl
    | cons q l'' =>
      show p :: extendLast ((q :: l'') ++ [x]) r = p :: ((q :: l'') ++ [x ++ r])
      rw [ih]

theorem getD_map_range {β : Type} (m : Nat) (g : Nat → β) (i : Nat) (hi : i < m) (d : β) :
    ((List.range m).map g).getD i d = g i := by
  rw [List.getD_eq_getElem?_getD]
  simp [List.getElem?_map, List.getElem?_range hi]

theorem getD_append_left {β : Type} (l₁ l₂ : List β) (i : Nat) (hi : i < l₁.length) (d : β) :
    (l₁ ++ l₂).getD i d = l₁.getD i d := by
  rw [List.getD_eq_getElem?_getD, List.getD_eq_getElem?_getD, List.getElem?_append_left hi]

theorem getD_append_last {β : Type} (l₁ : List β) (x : β) (d : β) :
    (l₁ ++ [x]).getD l₁.length d = x := by
  rw [List.getD_eq_getElem?_getD, List.getElem?_append_right (Nat.le_refl _)]
  simp

theorem getD_append_at {β : Type} (l₁ : List β) (x d : β) (i : Nat) (hi : i = l₁.length) :
    (l₁ ++ [x]).getD i d = x := by
  subst hi
  exact getD_append_last l₁ x d

theorem mem_of_mem_pySlice {α : Type} (l : List α) (a b : Nat) (x : α)
    (h : x ∈ pySlice l a b) : x ∈ l := by
  unfold pySlice at h
  exact List.mem_of_mem_take (List.mem_of_mem_drop h)

theorem ne_nil_of_length_pos {α : Type} (l : List α) (h : 0 < l.length) : l ≠ [] := by
  intro hcon
  subst hcon
  simp at h

theorem split_transcript_into_n_eq (text : String) (n : Nat) (h2 : 2 ≤ n) :
    split_transcript_into_n text n =
      .ok (((List.range (n - 1)).map (fun i =>
          pyJoin '\n' (pySlice (pySplit '\n' text)
            (i * ((pySplit '\n' text).length / n))
            ((i + 1) * ((pySplit '\n' text).length / n)))))
        ++ [pyJoin '\n'
            (pySlice (pySplit '\n' text)
              ((n - 1) * ((pySplit '\n' text).length / n))
              (n * ((pySplit '\n' text).length / n))
             ++ (pySplit '\n' text).drop (n * ((pySplit '\n' text).length / n)))]) := by
  obtain ⟨m, rfl⟩ : ∃ m, n = m + 1 := ⟨n - 1, by omega⟩
  simp only [split_transcript_into_n]
  rw [if_neg (by omega)]
  simp only [Nat.add_sub_cancel]
  by_cases hrem :
      ((pySplit '\n' text).drop ((m + 1) * ((pySplit '\n' text).length / (m + 1)))).isEmpty
  · rw [if_pos hrem]
    have hdrop :
        (pySplit '\n' text).drop ((m + 1) * ((pySplit '\n' text).length / (m + 1))) = [] := by
      simpa using hrem
    rw [hdrop, List.append_nil, List.range_succ, List.map_append, List.map_append]
    simp [List.map_map]
  · rw [if_neg hrem]
    rw [List.range_succ, List.map_append]
    simp only [List.map_cons, List.map_nil]
    rw [extendLast_append, List.map_append]
    simp [List.map_map]

/-- Claim C4 (amended): for a transcript of `k` newline-separated lines and
`2 ≤ n ≤ k`, `split_transcript_into_n` returns exactly `n` parts; every part
except the last has exactly `k / n` lines, the last part has
`k / n + k % n` lines, and joining all parts with the newline separator
reconstructs the transcript exactly.  (For `k < n` the emitted empty parts
make newline-rejoining differ from the input; see the counterexample.) -/
theorem split_transcript_into_n_parts (text : String) (n : Nat) (parts : List String)
    (h2 : 2 ≤ n) (hkn : n ≤ (pySplit '\n' text).length)
    (hok : split_transcript_into_n text n = .ok parts) :
    parts.length = n
    ∧ (∀ i, i + 1 < n →
        (pySplit '\n' (parts.getD i "")).length = (pySplit '\n' text).length / n)
    ∧ (pySplit '\n' (parts.getD (n - 1) "")).length
        = (pySplit '\n' text).length / n + (pySplit '\n' text).length % n
    ∧ pyJoin '\n' parts = text := by
  obtain ⟨m, rfl⟩ : ∃ m, n = m + 1 := ⟨n - 1, by omega⟩
  rw [split_transcript_into_n_eq text (m + 1) h2] at hok
  simp only [Nat.add_sub_cancel] at hok ⊢
  obtain rfl := (Except.ok.inj hok).symm
  set sections := pySplit '\n' text with hsec
  set s := sections.length / (m + 1) with hs
  set k := sections.length with hk
  have hs1 : 1 ≤ s := (Nat.one_le_div_iff (by omega)).mpr hkn
  have hns : (m + 1) * s ≤ k := by
    have := Nat.div_mul_le_self k (m + 1)
    calc (m + 1) * s = k / (m + 1) * (m + 1) := by rw [Nat.mul_comm]
      _ ≤ k := this
  have sliceLen : ∀ i, i < m + 1 → (pySlice sections (i * s) ((i + 1) * s)).length = s := by
    intro i hi
    rw [length_pySlice]
    have hup : (i + 1) * s ≤ (m + 1) * s := Nat.mul_le_mul_right s (by omega)
    have hsum : (i + 1) * s = i * s + s := by ring
    omega
  have sliceNe : ∀ i, i < m + 1 → pySlice sections (i * s) ((i + 1) * s) ≠ [] := by
    intro i hi
    apply ne_nil_of_length_pos
    rw [sliceLen i hi]
    omega
  have sliceClean : ∀ a b : Nat, ∀ p ∈ pySlice sections a b, '\n' ∉ p.data := by
    intro a b p hp
    exact pySplit_clean '\n' text p (mem_of_mem_pySlice sections a b p hp)
  have remClean : ∀ p ∈ sections.drop ((m + 1) * s), '\n' ∉ p.data := by
    intro p hp
    exact pySplit_clean '\n' text p (List.mem_of_mem_drop hp)
  have remLen : (sections.drop ((m + 1) * s)).length = k % (m + 1) := by
    rw [List.length_drop]
    have hdm := Nat.div_add_mod k (m + 1)
    rw [← hs] at hdm
    omega
  have hAlen : ((List.range m).map (fun i =>
      pyJoin '\n' (pySlice sections (i * s) ((i + 1) * s)))).length = m := by
    simp
  refine ⟨?_, ?_, ?_, ?_⟩
  · simp
  · intro i hi
    rw [getD_append_left _ _ i (by omega : i < ((List.range m).map (fun i =>
        pyJoin '\n' (pySlice sections (i * s) ((i + 1) * s)))).length) ""]
    rw [getD_map_range m _ i (by omega)]
    rw [pySplit_pyJoin '\n' _ (sliceNe i (by omega)) (sliceClean _ _)]
    exact sliceLen i (by omega)
  · rw [getD_append_at _ _ _ m hAlen.symm]
    have hgne : pySlice sections (m * s) ((m + 1) * s) ++ sections.drop ((m + 1) * s) ≠ [] := by
      intro hcon
      exact sliceNe m (by omega) (List.append_eq_nil.mp hcon).1
    have hgcl : ∀ p ∈ pySlice sections (m * s) ((m + 1) * s) ++ sections.drop ((m + 1) * s),
        '\n' ∉ p.data := by
      intro p hp
      rcases List.mem_append.mp hp with hp | hp
      · exact sliceClean _ _ p hp
      · exact remClean p hp
    rw [pySplit_pyJoin '\n' _ hgne hgcl, List.length_append, sliceLen m (by omega), remLen]
  · have hmapmap : (List.range m).map (fun i =>
        pyJoin '\n' (pySlice sections (i * s) ((i + 1) * s)))
        = ((List.range m).map (fun i => pySlice sections (i * s) ((i + 1) * s))).map
            (pyJoin '\n') := by
      rw [List.map_map]
      rfl
    have hsingle : [pyJoin '\n' (pySlice sections (m * s) ((m + 1) * s)
          ++ sections.drop ((m + 1) * s))]
        = ([pySlice sections (m * s) ((m + 1) * s)
            ++ sections.drop ((m + 1) * s)]).map (pyJoin '\n') := by
      simp
    rw [hmapmap, hsingle, ← List.map_append, pyJoin_map_pyJoin '\n' _ ?clean]
    case clean =>
      intro g hg
      rcases List.mem_append.mp hg with hg | hg
      · simp only [List.mem_map, List.mem_range] at hg
        obtain ⟨i, hi, rfl⟩ := hg
        exact sliceNe i (by omega)
      · simp only [List.mem_singleton] at hg
        subst hg
        intro hcon
        exact sliceNe m (by omega) (List.append_eq_nil.mp hcon).1
    have hflat : (((List.range m).map (fun i => pySlice sections (i * s) ((i + 1) * s)))
        ++ [pySlice sections (m * s) ((m + 1) * s) ++ sections.drop ((m + 1) * s)]).flatten
        = sections := by
      have hb := flatten_boundary_slices sections (fun i => i * s)
        (fun i j hij => Nat.mul_le_mul_right s hij) (m + 1)
      rw [List.range_succ, List.map_append] at hb
      simp only [List.map_cons, List.map_nil, List.flatten_append, List.flatten_cons,
        List.flatten_nil, List.append_nil, Nat.zero_mul] at hb
      simp only [List.flatten_append, List.flatten_cons, List.flatten_nil, List.append_nil]
      rw [← List.append_assoc, hb]
      have : pySlice sections 0 ((m + 1) * s) = sections.take ((m + 1) * s) := by
        simp [pySlice]
      rw [this, List.take_append_drop]
    rw [hflat]
    exact pyJoin_pySplit '\n' text

/-- Counterexample to claim C4 as stated: for the one-line transcript `"a"`
and `n = 2` (so `k = 1 < n`), the first emitted part is the empty string and
joining the parts with the newline separator yields `"\na"`, not the original
transcript. -/
theorem split_transcript_into_n_counterexample :
    split_transcript_into_n "a" 2 = .ok ["", "a"]
    ∧ pyJoin '\n' ["", "a"] ≠ "a" := by
  refine ⟨by decide, by decide⟩

/-- Witness for the amended C4 at a five-line transcript with `n = 2`. -/
theorem split_transcript_into_n_parts_witness :
    2 ≤ (pySplit '\n' "a\nb\nc\nd\ne").length
    ∧ (["a\nb", "c\nd\ne"] : List String).length = 2
    ∧ pyJoin '\n' ["a\nb", "c\nd\ne"] = "a\nb\nc\nd\ne" := by
  have h := split_transcript_into_n_parts "a\nb\nc\nd\ne" 2 ["a\nb", "c\nd\ne"]
    (by decide) (by decide) (by decide)
  exact ⟨by decide, h.1, h.2.2.2⟩

/- ------------------------------------------------------------------
Claim theorems about the fetch pipeline.
------------------------------------------------------------------ -/

/-- Claim C2: end-to-end scenario.  For the three-line transcript with
`num_split = 1`, an extraction provider returning indices `[0, 2]` yields
exactly the first and third sentences; a filtering provider returning
`related_indices = [0, 1]` and `sentiment_scores = [1, 1]` on those two
quotes yields the final `Result` with both quotes and scores `[1, 1]`. -/
theorem end_to_end_scenario :
    fetch_extracted_output tokSimple (extractOracle ⟨[0, 2]⟩ usageA) "Acme"
        "Revenue grew 10%.\nWeather was cloudy.\nMargins expanded." .overall .openai none 1
      = .ok ({ quotes := ["Revenue grew 10%.", "Margins expanded."], sentiment_scores := [] },
             [[[("openai", some usageA)]]])
    ∧ fetch_filtered_output (filterOracle ⟨[0, 1], [1, 1]⟩ usageA) "Acme"
        ["Revenue grew 10%.", "Margins expanded."] .overall .openai none 1
      = .ok ({ quotes := ["Revenue grew 10%.", "Margins expanded."],
               sentiment_scores := [1, 1] },
             [[[("openai", some usageA)]]]) := by
  exact ⟨rfl, rfl⟩

/-- Claim C1 (code evaluated at the failing input): in the source the
`retry_fetch(0.01, 1)` lines above the fetcher methods are bare expression
statements, not decorators, so when the transport raises on every attempt
`fetch_parsed_completion` and `fetch_parsed_output` PROPAGATE the exception
instead of returning `DEFAULT_EMPTY_PARSED_COMPLETION`; the repository's own
retry policy applied to the same transport would return the default object;
the extraction chunk task that made the call still yields an empty quote
list because of its own try/except. -/
theorem provider_retry_never_applied :
    fetch_parsed_completion
        (fun _ => .error (.other "connection failure"))
        (Messages.overallExtracting "Acme" "text")
      = (.error (.other "connection failure") :
          Except PyErr (ParsedChatCompletion ExtractedOutput))
    ∧ fetch_parsed_output
        (fun _ => .error (.other "connection failure")) "raw content"
      = (.error (.other "connection failure") :
          Except PyErr (ParsedChatCompletion ExtractedOutput))
    ∧ retry_fetch 1 (fun _ => .error (.other "connection failure"))
      = DEFAULT_EMPTY_PARSED_COMPLETION ExtractedOutput
    ∧ fetch_chunk_extract (raisingProviders ExtractedOutput (.other "connection failure"))
        "Acme" .overall .openai none [(Int.ofNat 0, "Hello.")]
      = .ok ([], []) := by
  exact ⟨rfl, rfl, rfl, rfl⟩

/-- Counterexample to claim C6 as stated: with `extraction_type = "theme"`
and `theme = None`, the ValueError raised inside the chunk task is NOT caught
at the chunk level (the `raise` precedes the `try` block): the chunk task
itself errors instead of returning an empty partial result, and the error
propagates out of the enclosing `_fetch_extracted_output` /
`_fetch_filtered_output` call. -/
theorem theme_none_not_caught_at_chunk :
    fetch_chunk_extract (extractOracle ⟨[0]⟩ usageA) "Acme" .theme .openai none
        [(Int.ofNat 0, "Hello.")]
      = .error (.valueError "No theme specified")
    ∧ _fetch_extracted_output tokSimple (extractOracle ⟨[0]⟩ usageA) "Acme" "Hello."
        .theme .openai none 20
      = .error (.valueError "No theme specified")
    ∧ fetch_chunk_filter (filterOracle ⟨[0], [1]⟩ usageA) "Acme" .theme .openai none
        ["Hello."]
      = .error (.valueError "No theme specified")
    ∧ _fetch_filtered_output (filterOracle ⟨[0], [1]⟩ usageA) "Acme" ["Hello."]
        .theme .openai none 20
      = .error (.valueError "No theme specified") := by
  exact ⟨rfl, rfl, rfl, rfl⟩

theorem gatherExcept_cons_error {ε α β : Type} (f : α → Except ε β) (a : α) (l : List α)
    (e : ε) (h : f a = .error e) : gatherExcept f (a :: l) = .error e := by
  simp only [gatherExcept, h]
  rfl

theorem fetch_chunk_extract_theme_none (P : Providers ExtractedOutput) (company : String)
    (ft : FetchType) (d : List (Int × String)) :
    fetch_chunk_extract P company .theme ft none d
      = .error (.valueError "No theme specified") := rfl

theorem fetch_chunk_filter_theme_none (Q : Providers FilteredWithSentimentQuotesOutput)
    (company : String) (ft : FetchType) (chunk_quotes : List String) :
    fetch_chunk_filter Q company .theme ft none chunk_quotes
      = .error (.valueError "No theme specified") := rfl

theorem except_bind_ok {ε α β : Type} (x : α) (k : α → Except ε β) :
    (Except.ok x >>= k) = k x := rfl

theorem rangeStep_ne_nil (stop step : Nat) (hstop : 0 < stop) (hstep : 0 < step) :
    rangeStep stop step ≠ [] := by
  unfold rangeStep
  have h1 : 1 ≤ (stop + step - 1) / step := (Nat.one_le_div_iff hstep).mpr (by omega)
  intro hcon
  rw [List.map_eq_nil_iff] at hcon
  rw [List.range_eq_nil] at hcon
  omega

theorem buildTextChunks_ne_nil (lines : List String) (max_size : Nat)
    (hl : lines ≠ []) (hm : 0 < max_size) : buildTextChunks lines max_size ≠ [] := by
  unfold buildTextChunks
  intro hcon
  rw [List.map_eq_nil_iff] at hcon
  exact rangeStep_ne_nil lines.length max_size (List.length_pos.mpr hl) hm hcon

theorem split_list_into_n_one {α : Type} (l : List α) (hl : l ≠ []) :
    split_list_into_n l 1 = [l] := by
  have hfalse : l.isEmpty = false := by
    cases l with
    | nil => exact absurd rfl hl
    | cons a t => rfl
  have hr1 : List.range 1 = [0] := rfl
  simp [split_list_into_n, pySlice, Nat.div_one, hr1, List.filter_cons, hfalse]

/-- Claim C6 (amended): when theme-mode extraction or filtering is invoked
with `theme = None`, the ValueError is raised immediately inside the chunk
task BEFORE its try/except block, so it is NOT caught at the chunk level and
NOT converted into an empty partial result: whenever at least one chunk
exists, the exception propagates out of the chunk task and aborts the whole
enclosing extraction/filtering call (it is caught only by the per-ticker
handler in `run.py`). -/
theorem theme_none_propagates (sent_tokenize : String → List String)
    (P : Providers ExtractedOutput) (Q : Providers FilteredWithSentimentQuotesOutput)
    (company text : String) (ft : FetchType) (max_size : Nat) (hms : 0 < max_size)
    (hsent : get_sentences sent_tokenize text ≠ [])
    (quotes : List String) (hq : quotes ≠ []) :
    _fetch_extracted_output sent_tokenize P company text .theme ft none max_size
      = .error (.valueError "No theme specified")
    ∧ fetch_extracted_output sent_tokenize P company text .theme ft none 1
      = .error (.valueError "No theme specified")
    ∧ _fetch_filtered_output Q company quotes .theme ft none max_size
      = .error (.valueError "No theme specified")
    ∧ fetch_filtered_output Q company quotes .theme ft none 1
      = .error (.valueError "No theme specified") := by
  have hex : ∀ ms : Nat, 0 < ms →
      _fetch_extracted_output sent_tokenize P company text .theme ft none ms
        = .error (.valueError "No theme specified") := by
    intro ms hms'
    obtain ⟨c, rest, hchunks⟩ := List.exists_cons_of_ne_nil
      (buildTextChunks_ne_nil (get_sentences sent_tokenize text) ms hsent hms')
    simp only [_fetch_extracted_output, hchunks]
    rw [gatherExcept_cons_error _ c rest _ (fetch_chunk_extract_theme_none P company ft c)]
    rfl
  have hfi : ∀ ms : Nat, 0 < ms →
      _fetch_filtered_output Q company quotes .theme ft none ms
        = .error (.valueError "No theme specified") := by
    intro ms hms'
    obtain ⟨c, rest, hchunks⟩ := List.exists_cons_of_ne_nil
      (show (rangeStep quotes.length ms).map (fun i => pySlice quotes i (i + ms)) ≠ [] by
        intro hcon
        rw [List.map_eq_nil_iff] at hcon
        exact rangeStep_ne_nil quotes.length ms (List.length_pos.mpr hq) hms' hcon)
    simp only [_fetch_filtered_output, hchunks]
    rw [gatherExcept_cons_error _ c rest _ (fetch_chunk_filter_theme_none Q company ft c)]
    rfl
  refine ⟨hex max_size hms, ?_, hfi max_size hms, ?_⟩
  · have hsplit : split_transcript_into_n text 1 = .ok [text] := rfl
    simp only [fetch_extracted_output, hsplit, except_bind_ok]
    rw [gatherExcept_cons_error _ text [] _ (hex 20 (by omega))]
    rfl
  · have hsplit : split_list_into_n quotes 1 = [quotes] := split_list_into_n_one quotes hq
    simp only [fetch_filtered_output, hsplit]
    rw [gatherExcept_cons_error _ quotes [] _ (hfi 20 (by omega))]
    rfl

/-- Witness for the amended C6 at concrete inputs. -/
theorem theme_none_propagates_witness :
    _fetch_extracted_output tokSimple (extractOracle ⟨[0]⟩ usageA) "Beta" "Hi there."
        .theme .furiosa none 7
      = .error (.valueError "No theme specified")
    ∧ fetch_filtered_output (filterOracle ⟨[0], [1]⟩ usageA) "Beta" ["One quote."]
        .theme .furiosa none 1
      = .error (.valueError "No theme specified") := by
  have h := theme_none_propagates tokSimple (extractOracle ⟨[0]⟩ usageA)
    (filterOracle ⟨[0], [1]⟩ usageA) "Beta" "Hi there." .furiosa 7 (by omega)
    (by decide) ["One quote."] (by decide)
  exact ⟨h.1, h.2.2.2⟩

theorem lookup_append {β : Type} (l₁ l₂ : List (Int × β)) (j : Int) :
    (l₁ ++ l₂).lookup j
      = match l₁.lookup j with
        | some v => some v
        | none => l₂.lookup j := by
  induction l₁ with
  | nil => simp [List.lookup]
  | cons kv t ih =>
    obtain ⟨k, v⟩ := kv
    simp only [List.cons_append, List.lookup]
    cases hjk : j == k with
    | true => simp
    | false => simpa using ih

theorem lookup_eq_none_of_keys {β : Type} (l : List (Int × β)) (j : Int)
    (h : ∀ kv ∈ l, kv.1 ≠ j) : l.lookup j = none := by
  induction l with
  | nil => simp [List.lookup]
  | cons kv t ih =>
    obtain ⟨k, v⟩ := kv
    simp only [List.lookup]
    cases hjk : j == k with
    | true =>
      exact absurd (beq_iff_eq.mp hjk).symm (h (k, v) (by simp))
    | false =>
      exact ih (fun kv hkv => h kv (by simp [hkv]))

theorem lookup_range_map_lt {β : Type} (m : Nat) (g : Nat → β) (j : Nat) (hj : j < m) :
    ((List.range m).map (fun i => (Int.ofNat i, g i))).lookup (Int.ofNat j) = some (g j) := by
  induction m with
  | zero => omega
  | succ m ih =>
    rw [List.range_succ, List.map_append, lookup_append]
    by_cases hjm : j < m
    · rw [ih hjm]
    · have hje : j = m := by omega
      subst hje
      rw [lookup_eq_none_of_keys _ _ ?keys]
      case keys =>
        intro kv hkv
        simp only [List.mem_map, List.mem_range] at hkv
        obtain ⟨i, hi, rfl⟩ := hkv
        show Int.ofNat i ≠ Int.ofNat j
        simp only [Int.ofNat_eq_natCast]
        omega
      simp [List.lookup]

theorem lookup_range_map_ge {β : Type} (m : Nat) (g : Nat → β) (j : Int)
    (hj : (Int.ofNat m) ≤ j ∨ j < 0) :
    ((List.range m).map (fun i => (Int.ofNat i, g i))).lookup j = none := by
  apply lookup_eq_none_of_keys
  intro kv hkv
  simp only [List.mem_map, List.mem_range] at hkv
  obtain ⟨i, hi, rfl⟩ := hkv
  show Int.ofNat i ≠ j
  simp only [Int.ofNat_eq_natCast] at hj ⊢
  rcases hj with hj | hj
  · omega
  · omega

theorem fetch_chunk_extract_oracle (out : ExtractedOutput) (u : TokensUsage)
    (company : String) (d : List (Int × String)) :
    fetch_chunk_extract (extractOracle out u) company .overall .openai none d
      = .ok (out.indices.filterMap (fun i => d.lookup i), [("openai", some u)]) := rfl

theorem fetch_chunk_filter_oracle_ok (out : FilteredWithSentimentQuotesOutput)
    (u : TokensUsage) (company : String) (ft : FetchType) (chunk_quotes : List String)
    (q : List String)
    (hg : gatherExcept (pyIndex chunk_quotes) (out.related_indices.filter
        (fun i => i < (chunk_quotes.length : Int))) = .ok q) :
    fetch_chunk_filter (filterOracle out u) company .overall ft none chunk_quotes
      = .ok (q, out.sentiment_scores.map (fun i => i), [("openai", some u)]) := by
  have key : filterTryBody (filterOracle out u)
      (Messages.overallFiltering company (formatFilterChunk chunk_quotes)) chunk_quotes
      = gatherExcept (pyIndex chunk_quotes) (out.related_indices.filter
          (fun i => i < (chunk_quotes.length : Int))) >>=
        (fun fq => Except.ok (fq, out.sentiment_scores.map (fun i => i),
          [("openai", some u)])) := rfl
  simp only [fetch_chunk_filter, buildFilterMessages, except_bind_ok, key, hg]
  rfl

theorem get_eq_getD (l : List String) (k : Nat) (hk : k < l.length) :
    l.get ⟨k, hk⟩ = l.getD k "" := by
  rw [List.get_eq_getElem, List.getD_eq_getElem?_getD, List.getElem?_eq_getElem hk]
  rfl

theorem pyIndex_nonneg (l : List String) (i : Int) (h0 : 0 ≤ i)
    (hlt : i < (l.length : Int)) : pyIndex l i = .ok (l.getD i.toNat "") := by
  have hw : pyWrap l.length i = i := by
    unfold pyWrap
    rw [if_neg (by omega : ¬ i < 0)]
  unfold pyIndex
  split
  case isTrue h =>
    have hk : (pyWrap l.length i).toNat = i.toNat := by rw [hw]
    rw [get_eq_getD, hk]
  case isFalse h =>
    rw [hw] at h
    exact absurd ⟨h0, hlt⟩ h

theorem gatherExcept_pyIndex (l : List String) (idxs : List Int)
    (h : ∀ i ∈ idxs, 0 ≤ i ∧ i < (l.length : Int)) :
    gatherExcept (pyIndex l) idxs = .ok (idxs.map (fun i => l.getD i.toNat "")) := by
  induction idxs with
  | nil => rfl
  | cons i t ih =>
    have hi := h i (by simp)
    have hIdx : pyIndex l i = .ok (l.getD i.toNat "") := pyIndex_nonneg l i hi.1 hi.2
    simp only [gatherExcept, hIdx, ih (fun j hj => h j (by simp [hj]))]
    rfl

theorem getLast_eq_getD (l : List String) (hne : l ≠ []) :
    l.getLast hne = l.getD (l.length - 1) "" := by
  have hlen : 0 < l.length := List.length_pos.mpr hne
  rw [List.getLast_eq_getElem, List.getD_eq_getElem?_getD,
    List.getElem?_eq_getElem (by omega : l.length - 1 < l.length)]
  rfl

theorem pyIndex_neg_one (l : List String) (hne : l ≠ []) :
    pyIndex l (-1) = .ok (l.getLast hne) := by
  have hlen : 0 < l.length := List.length_pos.mpr hne
  have hw : pyWrap l.length (-1) = -1 + (l.length : Int) := by
    unfold pyWrap
    rw [if_pos (by omega : (-1 : Int) < 0)]
  unfold pyIndex
  split
  case isTrue h =>
    have hk : (pyWrap l.length (-1)).toNat = l.length - 1 := by
      rw [hw]
      omega
    rw [get_eq_getD, hk, getLast_eq_getD l hne]
  case isFalse h =>
    rw [hw] at h
    exact absurd ⟨by omega, by omega⟩ h

/-- Claim C7: for an extraction chunk whose index-to-sentence mapping has
`m` entries with keys `0 .. m-1`, an extraction result with indices
`{0, m, m+5}` contributes only the quote at index `0`; the indices that are
not keys of the mapping are silently dropped and no exception is raised. -/
theorem extraction_drops_out_of_range (m : Nat) (hm : 0 < m) (f : Nat → String)
    (u : TokensUsage) (company : String) :
    fetch_chunk_extract (extractOracle ⟨[Int.ofNat 0, Int.ofNat m, Int.ofNat m + 5]⟩ u)
        company .overall .openai none
        ((List.range m).map (fun i => (Int.ofNat i, f i)))
      = .ok ([f 0], [("openai", some u)]) := by
  rw [fetch_chunk_extract_oracle]
  have hfm : ([Int.ofNat 0, Int.ofNat m, Int.ofNat m + 5] : List Int).filterMap
      (fun j => ((List.range m).map (fun i => (Int.ofNat i, f i))).lookup j) = [f 0] := by
    rw [List.filterMap_cons, List.filterMap_cons, List.filterMap_cons, List.filterMap_nil,
      lookup_range_map_lt m f 0 hm,
      lookup_range_map_ge m f (Int.ofNat m) (Or.inl (le_refl _)),
      lookup_range_map_ge m f (Int.ofNat m + 5) (Or.inl (by omega))]
  rw [hfm]

/-- Implicit claim C9: the filtering chunk task keeps exactly the quotes
whose related index satisfies `i < len(chunk)`, but returns the provider's
sentiment score list unfiltered; consequently a provider output with an
out-of-range index (and equal-length lists) produces a merged `Result` with
strictly more sentiment scores than quotes, so
`len(quotes) == len(sentiment_scores)` is not an invariant of the filtering
stage. -/
theorem filter_scores_unfiltered (chunk_quotes : List String)
    (out : FilteredWithSentimentQuotesOutput) (u : TokensUsage) (company : String)
    (ft : FetchType) (hnn : ∀ i ∈ out.related_indices, 0 ≤ i) :
    fetch_chunk_filter (filterOracle out u) company .overall ft none chunk_quotes
      = .ok (((out.related_indices.filter (fun i => i < (chunk_quotes.length : Int))).map
            (fun i => chunk_quotes.getD i.toNat "")),
          out.sentiment_scores.map (fun i => i), [("openai", some u)])
    ∧ (fetch_filtered_output (filterOracle ⟨[0, 1], [1, 1]⟩ usageA) "c" ["a"] .overall
        .openai none 1).map (fun r => (r.1.quotes.length, r.1.sentiment_scores.length))
      = .ok (1, 2) := by
  constructor
  · apply fetch_chunk_filter_oracle_ok
    apply gatherExcept_pyIndex
    intro i hi
    rw [List.mem_filter] at hi
    exact ⟨hnn i hi.1, by simpa using hi.2⟩
  · rfl

/-- Implicit claim C10: a negative index in `related_indices` is NOT
dropped by the filtering chunk task: the bound check only requires
`i < len(chunk_quotes)`, so `related_indices = [-1]` contributes the LAST
quote of any non-empty chunk via Python negative indexing — unlike
extraction, where any index that is not a key of the chunk mapping
(including negative ones) is silently dropped. -/
theorem filter_negative_index_keeps_last (chunk_quotes : List String)
    (hne : chunk_quotes ≠ []) (scores : List Int) (u : TokensUsage) (company : String)
    (ft : FetchType) (m : Nat) (f : Nat → String) :
    fetch_chunk_filter (filterOracle ⟨[-1], scores⟩ u) company .overall ft none chunk_quotes
      = .ok ([chunk_quotes.getLast hne], scores.map (fun i => i), [("openai", some u)])
    ∧ fetch_chunk_extract (extractOracle ⟨[-1]⟩ u) company .overall .openai none
        ((List.range m).map (fun i => (Int.ofNat i, f i)))
      = .ok ([], [("openai", some u)]) := by
  constructor
  · apply fetch_chunk_filter_oracle_ok
    have hfilter : ([-1] : List Int).filter (fun i => i < (chunk_quotes.length : Int))
        = [-1] := by
      simp [List.filter_cons,
        show (-1 : Int) < (chunk_quotes.length : Int) from by omega]
    rw [hfilter]
    have hIdx := pyIndex_neg_one chunk_quotes hne
    simp only [gatherExcept, hIdx]
    rfl
  · rw [fetch_chunk_extract_oracle]
    have hfm : ([-1] : List Int).filterMap
        (fun j => ((List.range m).map (fun i => (Int.ofNat i, f i))).lookup j) = [] := by
      rw [List.filterMap_cons, List.filterMap_nil,
        lookup_range_map_ge m f (-1) (Or.inr (by omega))]
    rw [hfm]

/-- Witness for C7 at `m = 3`. -/
theorem extraction_drops_out_of_range_witness :
    fetch_chunk_extract (extractOracle ⟨[Int.ofNat 0, Int.ofNat 3, Int.ofNat 3 + 5]⟩ usageA)
        "Acme" .overall .openai none
        ((List.range 3).map (fun i => (Int.ofNat i, ["a", "b", "c"].getD i "")))
      = .ok (["a"], [("openai", some usageA)]) := by
  have h := extraction_drops_out_of_range 3 (by decide)
    (fun i => ["a", "b", "c"].getD i "") usageA "Acme"
  exact h.trans (by decide)

/-- Witness for C9 at a two-quote chunk with provider indices `[0, 2]`. -/
theorem filter_scores_unfiltered_witness :
    fetch_chunk_filter (filterOracle ⟨[0, 2], [1, -1, 0]⟩ usageA) "c" .overall .openai
        none ["x", "y"]
      = .ok (["x"], [1, -1, 0], [("openai", some usageA)]) := by
  have h := (filter_scores_unfiltered ["x", "y"] ⟨[0, 2], [1, -1, 0]⟩ usageA "c" .openai
    (by decide)).1
  exact h.trans (by decide)

/-- Witness for C10 at a two-quote chunk and a two-entry extraction map. -/
theorem filter_negative_index_keeps_last_witness :
    fetch_chunk_filter (filterOracle ⟨[-1], [0]⟩ usageA) "c" .overall .groq none
        ["x", "y"]
      = .ok (["y"], [0], [("openai", some usageA)])
    ∧ fetch_chunk_extract (extractOracle ⟨[-1]⟩ usageA) "c" .overall .openai none
        ((List.range 2).map (fun i => (Int.ofNat i, ["p", "q"].getD i "")))
      = .ok ([], [("openai", some usageA)]) := by
  have h := filter_negative_index_keeps_last ["x", "y"] (by decide) [0] usageA "c" .groq 2
    (fun i => ["p", "q"].getD i "")
  exact ⟨h.1.trans (by decide), h.2.trans (by decide)⟩

/- ------------------------------------------------------------------
Claims C5 and C8.
------------------------------------------------------------------ -/

theorem fetch_parsed_openai_congr {α : Type} (P₁ P₂ : Providers α)
    (h : P₁.openaiParsedCompletion = P₂.openaiParsedCompletion) (messages : Messages) :
    fetch_parsed P₁ messages .openai = fetch_parsed P₂ messages .openai := by
  simp only [fetch_parsed, fetch_parsed_completion, h]

theorem fetch_chunk_filter_congr (P₁ P₂ : Providers FilteredWithSentimentQuotesOutput)
    (h : P₁.openaiParsedCompletion = P₂.openaiParsedCompletion)
    (company : String) (et : ExtractionType) (ft₁ ft₂ : FetchType)
    (theme : Option String) (chunk_quotes : List String) :
    fetch_chunk_filter P₁ company et ft₁ theme chunk_quotes
      = fetch_chunk_filter P₂ company et ft₂ theme chunk_quotes := by
  simp only [fetch_chunk_filter, filterTryBody, fetch_parsed_openai_congr P₁ P₂ h]

/-- Claim C5: the schema-constrained filtering request is dispatched through
the OpenAI client regardless of the caller's `fetch_type` (the chunk task
hardcodes `fetch_type="openai"`): for any two `fetch_type` values and any two
provider records that agree on the OpenAI structured-output transport (and
may differ arbitrarily on the groq/furiosa transports and the canonicalizing
parser), the whole filtering stage returns identical results. -/
theorem filtering_always_openai (P₁ P₂ : Providers FilteredWithSentimentQuotesOutput)
    (hoai : P₁.openaiParsedCompletion = P₂.openaiParsedCompletion)
    (company : String) (quotes : List String) (et : ExtractionType)
    (ft₁ ft₂ : FetchType) (theme : Option String) (num_split : Nat) :
    fetch_filtered_output P₁ company quotes et ft₁ theme num_split
      = fetch_filtered_output P₂ company quotes et ft₂ theme num_split := by
  have hchunk : fetch_chunk_filter P₁ company et ft₁ theme
      = fetch_chunk_filter P₂ company et ft₂ theme := by
    funext cq
    exact fetch_chunk_filter_congr P₁ P₂ hoai company et ft₁ ft₂ theme cq
  have hinner : (fun q => _fetch_filtered_output P₁ company q et ft₁ theme 20)
      = fun q => _fetch_filtered_output P₂ company q et ft₂ theme 20 := by
    funext q
    simp only [_fetch_filtered_output, hchunk]
  simp only [fetch_filtered_output, hinner]

/-- Witness for C5: two provider records sharing only the OpenAI transport,
invoked with `fetch_type = groq` and `fetch_type = furiosa`. -/
theorem filtering_always_openai_witness :
    fetch_filtered_output (filterOracle ⟨[0], [1]⟩ usageA) "c" ["x"] .overall .groq none 1
      = fetch_filtered_output
          { filterOracle ⟨[0], [1]⟩ usageA with
            groqChatCompletion := fun _ => .ok ⟨[], none⟩
            furiosaChatCompletion := fun _ => .ok ⟨[], none⟩
            openaiParseOutput := fun _ => .error .indexError }
          "c" ["x"] .overall .furiosa none 1 :=
  filtering_always_openai _ _ rfl "c" ["x"] .overall .groq .furiosa none 1

/-- Claim C8: resume idempotence at ticker granularity.  If the existing
overall output file has a line whose JSON record carries
`custom_id = "task-AAA-23-01-05-batch"`, then a re-run of the orchestrator
records ticker `"AAA"` as processed, filters every `AAA` example out of the
dataset, never invokes the extraction/filtering stages for `AAA`, and appends
no line for `AAA` to the output file. -/
theorem resume_skips_processed_ticker
    (parse_json : String → Except Unit OutRecord) (lines : List String)
    (line0 : String) (hmem : line0 ∈ lines) (hne : pyStrip line0 ≠ "")
    (hparse : parse_json (pyStrip line0) = .ok ⟨"task-AAA-23-01-05-batch"⟩)
    (dataset : List TranscriptExample) :
    "AAA" ∈ scanProcessedTickers parse_json lines
    ∧ (∀ ex ∈ filteredDataset parse_json lines dataset, ex.ticker ≠ "AAA")
    ∧ "AAA" ∉ mainInvokedTickers parse_json lines dataset
    ∧ "AAA" ∉ mainAppendedTickers parse_json lines dataset := by
  have hline : lineTicker parse_json line0 = some "AAA" := by
    simp only [lineTicker]
    rw [if_neg hne, hparse]
    rfl
  have hproc : "AAA" ∈ scanProcessedTickers parse_json lines :=
    List.mem_filterMap.mpr ⟨line0, hmem, hline⟩
  have hcont : (scanProcessedTickers parse_json lines).contains "AAA" = true :=
    List.elem_eq_true_of_mem hproc
  have hfilter : ∀ ex ∈ filteredDataset parse_json lines dataset, ex.ticker ≠ "AAA" := by
    intro ex hex hcon
    unfold filteredDataset at hex
    rw [List.mem_filter] at hex
    have hc := hex.2
    rw [hcon, hcont] at hc
    simp at hc
  refine ⟨hproc, hfilter, ?_, ?_⟩
  · intro hcon
    unfold mainInvokedTickers at hcon
    rw [List.mem_map] at hcon
    obtain ⟨ex, hex, hexeq⟩ := hcon
    rw [List.mem_filter] at hex
    exact hfilter ex hex.1 hexeq
  · intro hcon
    unfold mainAppendedTickers at hcon
    rw [List.mem_filterMap] at hcon
    obtain ⟨ex, hex, hexeq⟩ := hcon
    by_cases hsk : (scanProcessedTickers parse_json lines).contains ex.ticker
    · rw [if_pos hsk] at hexeq
      exact Option.noConfusion hexeq
    · rw [if_neg hsk] at hexeq
      exact hfilter ex hex (Option.some.inj hexeq)

/-- Witness for C8 at a one-line output file and a one-example dataset. -/
theorem resume_skips_processed_ticker_witness :
    "AAA" ∈ scanProcessedTickers
      (fun s => if s = "rec" then .ok ⟨"task-AAA-23-01-05-batch"⟩ else .error ())
      ["rec"]
    ∧ "AAA" ∉ mainInvokedTickers
      (fun s => if s = "rec" then .ok ⟨"task-AAA-23-01-05-batch"⟩ else .error ())
      ["rec"] [⟨"AAA", "2023-01-05 00:00:00.000000", "text"⟩] := by
  have h := resume_skips_processed_ticker
    (fun s => if s = "rec" then .ok ⟨"task-AAA-23-01-05-batch"⟩ else .error ())
    ["rec"] "rec" (by decide) (by decide) (by decide)
    [⟨"AAA", "2023-01-05 00:00:00.000000", "text"⟩]
  exact ⟨h.1, h.2.2.1⟩
